import Mathlib

/-!
Verification of the streak state engine of the DiscordLanguageStreakBot
repository (`src/streak_manager.py` and the core loops of `src/bot.py`).

Modelling conventions:

* Python dicts are modelled as association lists (`List (κ × α)`) that
  preserve insertion order; `alookup`, `aset` and `aerase` model
  `d.get(k)` / `d[k] = v` (update in place, append when fresh) / `d.pop(k)`.
* ISO date strings (`YYYY-MM-DD`, the only format the bot ever writes via
  `date.isoformat()` and the layout documented for the JSON file) are kept
  as `String`s; `parseDate` models `datetime.date.fromisoformat` on that
  format, returning the proleptic-Gregorian ordinal that Python's
  `date.toordinal` uses (0001-01-01 is day 1), and `none` where Python
  raises `ValueError`.  `(curr - last).days` is then ordinal subtraction.
* Role-reward keys are written by `set_role_reward` as `str(days)`; since
  `str` renders integers canonically we model the key by the integer
  itself, and `k.isdigit()` (true exactly for the canonical rendering of a
  non-negative integer) by `0 ≤ k`.
* The manager state is a pair of documents: `mem` models `self._data` and
  `disk` models the JSON file; `_save_data` copies `mem` to `disk`.
  Methods that call `_save_data` end by setting `disk := mem`.
-/

/-- Model of `d.get(k)`: first entry of the association list with key `k`. -/
def alookup [DecidableEq κ] (k : κ) : List (κ × α) → Option α
  | [] => none
  | (a, b) :: t => if a = k then some b else alookup k t

/-- Model of `d[k] = v`: replace the value at `k` in place, append if absent. -/
def aset [DecidableEq κ] (k : κ) (v : α) : List (κ × α) → List (κ × α)
  | [] => [(k, v)]
  | (a, b) :: t => if a = k then (k, v) :: t else (a, b) :: aset k v t

/-- Model of `d.pop(k, None)`: drop the entry with key `k` if present. -/
def aerase [DecidableEq κ] (k : κ) : List (κ × α) → List (κ × α)
  | [] => []
  | (a, b) :: t => if a = k then t else (a, b) :: aerase k t

/-- Gregorian leap-year test, as in Python's `datetime`. -/
def isLeap (y : Nat) : Bool :=
  (y % 4 == 0 && y % 100 != 0) || y % 400 == 0

/-- Length of month `m` of year `y` (months are 1-based). -/
def daysInMonth (y m : Nat) : Nat :=
  if m == 2 then (if isLeap y then 29 else 28)
  else if m == 4 || m == 6 || m == 9 || m == 11 then 30
  else 31

/-- Days in year `y` before the start of month `m`. -/
def daysBeforeMonth (y m : Nat) : Nat :=
  (List.range (m - 1)).foldl (fun a i => a + daysInMonth y (i + 1)) 0

/-- Python's `date.toordinal`: day number of `y-m-d`, with 0001-01-01 ↦ 1. -/
def toOrdinal (y m d : Nat) : Int :=
  (365 * (y - 1) + (y - 1) / 4 - (y - 1) / 100 + (y - 1) / 400
    + daysBeforeMonth y m + d : Nat)

/-- Numeric value of a decimal digit character. -/
def digitVal (c : Char) : Nat := c.toNat - 48

/-- Model of `date.fromisoformat` on the `YYYY-MM-DD` calendar form: the
ordinal of the date when the string is exactly that shape and in range,
`none` where Python raises. -/
def parseDate (s : String) : Option Int :=
  match s.toList with
  | [y1, y2, y3, y4, h1, m1, m2, h2, d1, d2] =>
    if y1.isDigit && y2.isDigit && y3.isDigit && y4.isDigit
        && h1 == '-' && m1.isDigit && m2.isDigit
        && h2 == '-' && d1.isDigit && d2.isDigit then
      let y := 1000 * digitVal y1 + 100 * digitVal y2 + 10 * digitVal y3 + digitVal y4
      let m := 10 * digitVal m1 + digitVal m2
      let d := 10 * digitVal d1 + digitVal d2
      if 1 ≤ y ∧ 1 ≤ m ∧ m ≤ 12 ∧ 1 ≤ d ∧ d ≤ daysInMonth y m then
        some (toOrdinal y m d)
      else none
    else none
  | _ => none

/-- One `users` entry: the dict `{"streak": int, "last_date": str | None}`. -/
structure UserData where
  streak : Int
  last_date : Option String
deriving DecidableEq

/-- One guild record: channel, user streaks, role-reward thresholds. -/
structure GuildData where
  streak_channel_id : Option String
  users : List (String × UserData)
  role_rewards : List (Int × String)
deriving DecidableEq

/-- The whole in-memory document `self._data` (the `"guilds"` mapping). -/
structure StoreData where
  guilds : List (String × GuildData)
deriving DecidableEq

/-- The manager: in-memory document plus the persisted JSON document. -/
structure Store where
  mem : StoreData
  disk : StoreData
deriving DecidableEq

/-- The guild record freshly created by `ensure_guild`. -/
def defaultGuild : GuildData := ⟨none, [], []⟩

/-- The user record freshly created by `users.setdefault(user_id, ...)`. -/
def freshUser : UserData := ⟨0, none⟩

/-- A manager with nothing recorded (`{"guilds": {}}`). -/
def emptyStore : Store := ⟨⟨[]⟩, ⟨[]⟩⟩

/-- `StreakManager.ensure_guild`: create the guild record if absent
(in memory only; the method does not persist). -/
def ensure_guild (sd : StoreData) (gid : String) : StoreData :=
  match alookup gid sd.guilds with
  | some _ => sd
  | none => ⟨aset gid defaultGuild sd.guilds⟩

/-- `self._data["guilds"][guild_id]` after `ensure_guild` has run. -/
def guildOf (sd : StoreData) (gid : String) : GuildData :=
  (alookup gid sd.guilds).getD defaultGuild

/-- The `users` dict of a guild. -/
def usersOf (sd : StoreData) (gid : String) : List (String × UserData) :=
  (guildOf sd gid).users

/-- Python truthiness of the stored `last_date` (`None` and `""` are falsy). -/
def truthyStr : Option String → Bool
  | none => false
  | some s => s != ""

/-- The `diff` computed inside `record_streak`: `(curr - last).days`,
`None` when either `fromisoformat` call raises. -/
def dateDiff (last_date : Option String) (current_date : String) : Option Int :=
  match last_date with
  | some ld =>
    match parseDate ld, parseDate current_date with
    | some l, some c => some (c - l)
    | _, _ => none
  | none => none

/-- The else-branch of `record_streak`'s case analysis (`last_date` differs
from `current_date`): `prev + 1` on an exactly-one-day difference, `1` on a
first entry or any other gap. -/
def elseStreak (prev : Int) (last_date : Option String) (current_date : String) : Int :=
  if truthyStr last_date then
    (if dateDiff last_date current_date = some 1 then prev + 1 else 1)
  else 1

/-- `StreakManager.record_streak` on the in-memory document: ensure the
guild, `setdefault` the user, then either keep the streak (same-day
re-post, no field write-back) or write `(elseStreak, current_date)`.
Returns `user_data["streak"]` after the update together with the new
document. -/
def record_streak_mem (sd : StoreData) (gid uid current_date : String) :
    Int × StoreData :=
  let sd1 := ensure_guild sd gid
  let g := guildOf sd1 gid
  let users0 := g.users
  let u := (alookup uid users0).getD freshUser
  let users1 := if (alookup uid users0).isSome then users0
    else aset uid freshUser users0
  if u.last_date = some current_date then
    (u.streak, ⟨aset gid { g with users := aset uid u users1 } sd1.guilds⟩)
  else
    let s := elseStreak u.streak u.last_date current_date
    (s, ⟨aset gid { g with users := aset uid ⟨s, some current_date⟩ users1 } sd1.guilds⟩)

/-- `StreakManager.record_streak` (the public method: mutate, save, return). -/
def record_streak (st : Store) (gid uid current_date : String) : Int × Store :=
  let r := record_streak_mem st.mem gid uid current_date
  (r.1, ⟨r.2, r.2⟩)

/-- `StreakManager.set_streak_channel`. -/
def set_streak_channel (st : Store) (gid cid : String) : Store :=
  let sd1 := ensure_guild st.mem gid
  let g := guildOf sd1 gid
  let m : StoreData := ⟨aset gid { g with streak_channel_id := some cid } sd1.guilds⟩
  ⟨m, m⟩

/-- `StreakManager.unset_streak_channel`. -/
def unset_streak_channel (st : Store) (gid : String) : Store :=
  let sd1 := ensure_guild st.mem gid
  let g := guildOf sd1 gid
  let m : StoreData := ⟨aset gid { g with streak_channel_id := none } sd1.guilds⟩
  ⟨m, m⟩

/-- `StreakManager.get_streak_channel`: ensure the guild, read the field,
no save. -/
def get_streak_channel (st : Store) (gid : String) : Option String × Store :=
  let sd1 := ensure_guild st.mem gid
  ((guildOf sd1 gid).streak_channel_id, ⟨sd1, st.disk⟩)

/-- `StreakManager.remove_user_streak`: zero the streak and clear the date
of an existing user, leave the users dict alone otherwise; save. -/
def remove_user_streak (st : Store) (gid uid : String) : Store :=
  let sd1 := ensure_guild st.mem gid
  let g := guildOf sd1 gid
  let users1 := match alookup uid g.users with
    | some _ => aset uid ⟨0, none⟩ g.users
    | none => g.users
  let m : StoreData := ⟨aset gid { g with users := users1 } sd1.guilds⟩
  ⟨m, m⟩

/-- `StreakManager.set_role_reward`: `rewards[str(days)] = str(role_id)`. -/
def set_role_reward (st : Store) (gid : String) (days : Int) (role_id : String) :
    Store :=
  let sd1 := ensure_guild st.mem gid
  let g := guildOf sd1 gid
  let m : StoreData :=
    ⟨aset gid { g with role_rewards := aset days role_id g.role_rewards } sd1.guilds⟩
  ⟨m, m⟩

/-- `StreakManager.remove_role_reward`: `rewards.pop(str(days), None)`. -/
def remove_role_reward (st : Store) (gid : String) (days : Int) : Store :=
  let sd1 := ensure_guild st.mem gid
  let g := guildOf sd1 gid
  let m : StoreData :=
    ⟨aset gid { g with role_rewards := aerase days g.role_rewards } sd1.guilds⟩
  ⟨m, m⟩

/-- The dict comprehension in `get_role_rewards`:
`{int(k): str(v) for k, v in rewards.items() if k.isdigit()}` — keep the
entries whose key is the rendering of a non-negative integer, later
duplicates overriding earlier ones. -/
def role_rewards_view (rr : List (Int × String)) : List (Int × String) :=
  rr.foldl (fun acc kv => if 0 ≤ kv.1 then aset kv.1 kv.2 acc else acc) []

/-- `StreakManager.get_role_rewards`: ensure the guild, return the integer
view of the rewards dict, no save. -/
def get_role_rewards (st : Store) (gid : String) : List (Int × String) × Store :=
  let sd1 := ensure_guild st.mem gid
  (role_rewards_view (guildOf sd1 gid).role_rewards, ⟨sd1, st.disk⟩)

/-- `StreakManager.get_user_streak`: the stored streak, `0` if absent; no save. -/
def get_user_streak (st : Store) (gid uid : String) : Int × Store :=
  let sd1 := ensure_guild st.mem gid
  ((match alookup uid (usersOf sd1 gid) with
    | some u => u.streak
    | none => 0), ⟨sd1, st.disk⟩)

/-- One step of `leaderboard.sort(key=lambda x: x[1], reverse=True)`:
insert into a descending list, before the first element it is not below
(equal keys keep their original relative order, as Python's stable sort
guarantees). -/
def insertDesc (p : String × Int) : List (String × Int) → List (String × Int)
  | [] => [p]
  | q :: t => if q.2 ≤ p.2 then p :: q :: t else q :: insertDesc p t

/-- Stable descending sort by streak (extensionally Python's
`sort(key=lambda x: x[1], reverse=True)`). -/
def sortDesc : List (String × Int) → List (String × Int)
  | [] => []
  | p :: t => insertDesc p (sortDesc t)

/-- `StreakManager.get_leaderboard`: the `(user_id, streak)` pairs with
positive streak, sorted descending by streak; no save. -/
def get_leaderboard (st : Store) (gid : String) : List (String × Int) × Store :=
  let sd1 := ensure_guild st.mem gid
  let lb := ((usersOf sd1 gid).filter (fun p => 0 < p.2.streak)).map
    (fun p => (p.1, p.2.streak))
  (sortDesc lb, ⟨sd1, st.disk⟩)

/-- The reward loop of `on_message` (bot.py lines 193-199): for each
configured `(days_threshold, role_id)` with `streak_count >= days_threshold`,
resolve the role (`guild.get_role`, modelled by the `resolve` oracle) and
collect it unless the member already has it. -/
def roles_to_add (resolve : String → Option String) (streak_count : Int)
    (rewards : List (Int × String)) (memberRoles : List String) : List String :=
  rewards.filterMap (fun dr =>
    if dr.1 ≤ streak_count then
      match resolve dr.2 with
      | some role => if memberRoles.contains role then none else some role
      | none => none
    else none)

/-- The body of `cleanup_inactive_roles` for one guild (bot.py lines
115-144): skip the guild when the integer rewards view is empty; otherwise,
for each user with a truthy, parseable `last_date` more than 7 days before
`today`, pair the user with the reward roles they currently hold
(`memberRoles` models `member.roles`; a missing member is the same as a
member holding none of the reward roles, since `remove_roles` is only
called on a non-empty list). -/
def cleanup_inactive_plan (today : Int) (g : GuildData)
    (memberRoles : String → List String) : List (String × List String) :=
  let rewards := role_rewards_view g.role_rewards
  if rewards = [] then []
  else
    let role_ids := rewards.map Prod.snd
    g.users.filterMap (fun p =>
      match p.2.last_date with
      | none => none
      | some ld =>
        if ld = "" then none
        else
          match parseDate ld with
          | none => none
          | some l =>
            if 7 < today - l then
              some (p.1, role_ids.filter (fun r => (memberRoles p.1).contains r))
            else none)

/-! ### Association-list lemmas -/

theorem alookup_aset_self [DecidableEq κ] (k : κ) (v : α) (l : List (κ × α)) :
    alookup k (aset k v l) = some v := by
  induction l with
  | nil => simp [aset, alookup]
  | cons p t ih =>
    by_cases h : p.1 = k
    · simp [aset, h, alookup]
    · simpa [aset, h, alookup] using ih

theorem aset_of_alookup_eq [DecidableEq κ] {k : κ} {v : α} {l : List (κ × α)}
    (h : alookup k l = some v) : aset k v l = l := by
  induction l with
  | nil => simp [alookup] at h
  | cons p t ih =>
    obtain ⟨a, b⟩ := p
    by_cases hp : a = k
    · subst hp
      simp [alookup] at h
      simp [aset, h]
    · simp [alookup, hp] at h
      simp [aset, hp, ih h]

theorem alookup_mem [DecidableEq κ] {k : κ} {v : α} {l : List (κ × α)}
    (h : alookup k l = some v) : (k, v) ∈ l := by
  induction l with
  | nil => simp [alookup] at h
  | cons p t ih =>
    obtain ⟨a, b⟩ := p
    by_cases hp : a = k
    · subst hp
      simp [alookup] at h
      simp [h]
    · simp [alookup, hp] at h
      exact List.mem_cons_of_mem _ (ih h)

theorem mem_aset [DecidableEq κ] {p : κ × α} {k : κ} {v : α} {l : List (κ × α)}
    (h : p ∈ aset k v l) : p = (k, v) ∨ p ∈ l := by
  induction l with
  | nil => simpa [aset] using h
  | cons q t ih =>
    by_cases hq : q.1 = k
    · simp [aset, hq] at h
      rcases h with h | h
      · exact Or.inl h
      · exact Or.inr (List.mem_cons_of_mem _ h)
    · simp [aset, hq] at h
      rcases h with h | h
      · exact Or.inr (by simp [h])
      · rcases ih h with h' | h'
        · exact Or.inl h'
        · exact Or.inr (List.mem_cons_of_mem _ h')

theorem mem_aerase [DecidableEq κ] {p : κ × α} {k : κ} {l : List (κ × α)}
    (h : p ∈ aerase k l) : p ∈ l := by
  induction l with
  | nil => simp [aerase] at h
  | cons q t ih =>
    by_cases hq : q.1 = k
    · simp [aerase, hq] at h
      exact List.mem_cons_of_mem _ h
    · simp [aerase, hq] at h
      rcases h with h | h
      · simp [h]
      · exact List.mem_cons_of_mem _ (ih h)

theorem mem_keys_aset [DecidableEq κ] {x k : κ} {v : α} {l : List (κ × α)}
    (h : x ∈ (aset k v l).map Prod.fst) : x = k ∨ x ∈ l.map Prod.fst := by
  simp only [List.mem_map] at h
  rcases h with ⟨p, hp, rfl⟩
  rcases mem_aset hp with h' | h'
  · exact Or.inl (by simp [h'])
  · exact Or.inr (List.mem_map_of_mem _ h')

theorem keys_nodup_aset [DecidableEq κ] {l : List (κ × α)} (k : κ) (v : α)
    (h : (l.map Prod.fst).Nodup) : ((aset k v l).map Prod.fst).Nodup := by
  induction l with
  | nil => simp [aset]
  | cons q t ih =>
    obtain ⟨a, b⟩ := q
    by_cases hq : a = k
    · subst hq
      simpa [aset] using h
    · simp only [List.map_cons, List.nodup_cons] at h
      simp only [aset, if_neg hq, List.map_cons, List.nodup_cons]
      constructor
      · intro hmem
        rcases mem_keys_aset hmem with h' | h'
        · exact hq h'
        · exact h.1 h'
      · exact ih h.2

/-! ### `ensure_guild` lemmas -/

theorem alookup_ensure (sd : StoreData) (gid : String) :
    alookup gid (ensure_guild sd gid).guilds = some (guildOf sd gid) := by
  unfold ensure_guild guildOf
  cases h : alookup gid sd.guilds with
  | some g => simp [h]
  | none => simp [h, alookup_aset_self]

theorem ensure_of_isSome {sd : StoreData} {gid : String}
    (h : (alookup gid sd.guilds).isSome) : ensure_guild sd gid = sd := by
  unfold ensure_guild
  cases hh : alookup gid sd.guilds with
  | some g => rfl
  | none => rw [hh] at h; simp at h

theorem guildOf_ensure (sd : StoreData) (gid : String) :
    guildOf (ensure_guild sd gid) gid = guildOf sd gid := by
  simp [guildOf, alookup_ensure]

theorem ensure_ensure (sd : StoreData) (gid : String) :
    ensure_guild (ensure_guild sd gid) gid = ensure_guild sd gid :=
  ensure_of_isSome (by simp [alookup_ensure])

/-! ### Date-string lemmas -/

theorem parseDate_empty : parseDate "" = none := by decide

theorem parseDate_ne_empty {s : String} {x : Int} (h : parseDate s = some x) :
    s ≠ "" := by
  intro h0
  rw [h0, parseDate_empty] at h
  exact Option.noConfusion h

theorem parseDate_ne {s1 s2 : String} {x1 x2 : Int}
    (h1 : parseDate s1 = some x1) (h2 : parseDate s2 = some x2) (hx : x1 ≠ x2) :
    s1 ≠ s2 := by
  intro h0
  rw [h0] at h1
  rw [h1] at h2
  injection h2 with h3
  exact hx h3

/-! ### `record_streak` lemmas -/

theorem record_streak_mem_same_day {sd : StoreData} {gid uid T : String} {u : UserData}
    (hu : alookup uid (usersOf (ensure_guild sd gid) gid) = some u)
    (hl : u.last_date = some T) :
    record_streak_mem sd gid uid T = (u.streak, ensure_guild sd gid) := by
  simp only [usersOf] at hu
  simp only [record_streak_mem]
  rw [hu]
  simp only [Option.getD_some, Option.isSome_some, if_true, if_pos hl]
  rw [aset_of_alookup_eq hu]
  show (u.streak,
    StoreData.mk (aset gid (guildOf (ensure_guild sd gid) gid) (ensure_guild sd gid).guilds))
    = _
  rw [guildOf_ensure, aset_of_alookup_eq (alookup_ensure sd gid)]

theorem record_post (sd : StoreData) (gid uid T : String) :
    alookup uid (usersOf (record_streak_mem sd gid uid T).2 gid) =
      some ⟨(record_streak_mem sd gid uid T).1, some T⟩ := by
  rcases hu : (alookup uid (usersOf (ensure_guild sd gid) gid)).getD freshUser with ⟨s, ld⟩
  simp only [usersOf, guildOf] at hu
  simp only [record_streak_mem, usersOf, guildOf, hu]
  split
  · rename_i h
    simp [alookup_aset_self, h]
  · simp [alookup_aset_self]

theorem record_post_guild (sd : StoreData) (gid uid T : String) :
    (alookup gid (record_streak_mem sd gid uid T).2.guilds).isSome := by
  simp only [record_streak_mem]
  split <;> simp [alookup_aset_self]

/-- C2: recording activity a second time with the same date string is
idempotent — the second call returns the same streak, and the whole
manager state (in-memory document and persisted document, hence the
stored streak and stored `last_date`) is exactly the state after the
first call, because the write-back of `(streak, today)` only happens
when `today` differs from the stored `last_date`. -/
theorem c2_record_activity_idempotent (st : Store) (gid uid T : String) :
    record_streak (record_streak st gid uid T).2 gid uid T
      = record_streak st gid uid T := by
  have h2 := record_post_guild st.mem gid uid T
  have he : ensure_guild (record_streak_mem st.mem gid uid T).2 gid
      = (record_streak_mem st.mem gid uid T).2 := ensure_of_isSome h2
  have h1 : alookup uid (usersOf
      (ensure_guild (record_streak_mem st.mem gid uid T).2 gid) gid)
      = some ⟨(record_streak_mem st.mem gid uid T).1, some T⟩ := by
    rw [he]
    exact record_post st.mem gid uid T
  have hsame := record_streak_mem_same_day h1 rfl
  simp only [record_streak]
  rw [hsame, he]

/-- C1: the case analysis of `record_streak` on a stored state
`(n, last_date)` and a current date `T` (a valid date string parsing to
day `t`): the streak stays `n` when the stored date equals `T`, becomes
`n + 1` when the stored date is exactly one day before `T`, and resets
to `1` when there is no stored date or the gap is anything other than
one day (longer gaps and `T` before the stored date alike). -/
theorem c1_streak_case_analysis (st : Store) (gid uid : String) (n t : Int)
    (D : Option String) (T : String)
    (hn : 0 ≤ n)
    (hu : alookup uid (usersOf (ensure_guild st.mem gid) gid) = some ⟨n, D⟩)
    (hT : parseDate T = some t) :
    (D = some T → (record_streak st gid uid T).1 = n) ∧
    (∀ Ds d, D = some Ds → parseDate Ds = some d → t = d + 1 →
      (record_streak st gid uid T).1 = n + 1) ∧
    (D = none → (record_streak st gid uid T).1 = 1) ∧
    (∀ Ds d, D = some Ds → parseDate Ds = some d → t ≠ d → t ≠ d + 1 →
      (record_streak st gid uid T).1 = 1) := by
  have hbase : (record_streak st gid uid T).1
      = (record_streak_mem st.mem gid uid T).1 := rfl
  simp only [usersOf] at hu
  refine ⟨?_, ?_, ?_, ?_⟩
  · intro hD
    subst hD
    rw [hbase]
    simp only [record_streak_mem, hu, Option.getD_some]
    simp
  · intro Ds d hD hd ht
    subst hD
    have hne : Ds ≠ T := parseDate_ne hd hT (by omega)
    rw [hbase]
    simp only [record_streak_mem, hu, Option.getD_some]
    rw [if_neg (by simpa using hne)]
    simp only [elseStreak, dateDiff, hd, hT]
    rw [if_pos (by simp [truthyStr, bne_iff_ne]; exact parseDate_ne_empty hd)]
    rw [if_pos (by subst ht; simp)]
  · intro hD
    subst hD
    rw [hbase]
    simp only [record_streak_mem, hu, Option.getD_some]
    simp [elseStreak, truthyStr]
  · intro Ds d hD hd ht1 ht2
    subst hD
    have hne : Ds ≠ T := parseDate_ne hd hT (Ne.symm ht1)
    rw [hbase]
    simp only [record_streak_mem, hu, Option.getD_some]
    rw [if_neg (by simpa using hne)]
    simp only [elseStreak, dateDiff, hd, hT]
    rw [if_pos (by simp [truthyStr, bne_iff_ne]; exact parseDate_ne_empty hd)]
    rw [if_neg (by intro hh; injection hh with hh2; omega)]

/-- C10: when the stored `last_date` is a non-null string the date parser
rejects, `record_streak` with a genuine current date does not fail: the
`except` branch leaves `diff = None`, the user is treated as a fresh
start, the call returns `1`, and the stored state becomes
`(1, current_date)`. -/
theorem c10_unparseable_last_date (st : Store) (gid uid : String) (n : Int)
    (s T : String) (t : Int)
    (hu : alookup uid (usersOf (ensure_guild st.mem gid) gid) = some ⟨n, some s⟩)
    (hs : parseDate s = none) (hT : parseDate T = some t) :
    (record_streak st gid uid T).1 = 1 ∧
    alookup uid (usersOf (record_streak st gid uid T).2.mem gid)
      = some ⟨1, some T⟩ := by
  have hne : s ≠ T := by
    intro h0
    rw [h0, hT] at hs
    exact Option.noConfusion hs
  have hElse : elseStreak n (some s) T = 1 := by
    by_cases h0 : s = ""
    · simp [elseStreak, truthyStr, h0]
    · simp [elseStreak, truthyStr, dateDiff, hs, h0]
  have hres : (record_streak_mem st.mem gid uid T).1 = 1 := by
    simp only [usersOf] at hu
    simp only [record_streak_mem, hu, Option.getD_some]
    rw [if_neg (by simpa using hne)]
    simpa using hElse
  refine ⟨hres, ?_⟩
  have hpost := record_post st.mem gid uid T
  rw [hres] at hpost
  exact hpost

/-- A manager holding one user with streak 3 last active on 0001-01-05. -/
def storeA : Store := ⟨⟨[("g", ⟨none, [("u", ⟨3, some "0001-01-05"⟩)], []⟩)]⟩, ⟨[]⟩⟩

/-- A manager holding one user whose stored `last_date` is garbage. -/
def storeB : Store := ⟨⟨[("g", ⟨none, [("u", ⟨5, some "not-a-date"⟩)], []⟩)]⟩, ⟨[]⟩⟩

/-- Witness for C1: a user on streak 3 last active 0001-01-05 posting on
0001-01-06 ends on streak 4. -/
theorem c1_streak_case_analysis_witness :
    (0 : Int) ≤ 3 ∧
    alookup "u" (usersOf (ensure_guild storeA.mem "g") "g")
      = some ⟨3, some "0001-01-05"⟩ ∧
    parseDate "0001-01-06" = some 6 ∧
    (record_streak storeA "g" "u" "0001-01-06").1 = 3 + 1 :=
  ⟨by decide, by decide, by decide,
    (c1_streak_case_analysis storeA "g" "u" 3 6 (some "0001-01-05") "0001-01-06"
      (by decide) (by decide) (by decide)).2.1 "0001-01-05" 5 rfl (by decide)
      (by decide)⟩

/-- Witness for C10: a stored `last_date` of `"not-a-date"` yields streak 1
and a clean overwrite on the next post. -/
theorem c10_unparseable_last_date_witness :
    alookup "u" (usersOf (ensure_guild storeB.mem "g") "g")
      = some ⟨5, some "not-a-date"⟩ ∧
    parseDate "not-a-date" = none ∧
    parseDate "0001-01-01" = some 1 ∧
    ((record_streak storeB "g" "u" "0001-01-01").1 = 1 ∧
      alookup "u" (usersOf (record_streak storeB "g" "u" "0001-01-01").2.mem "g")
        = some ⟨1, some "0001-01-01"⟩) :=
  ⟨by decide, by decide, by decide,
    c10_unparseable_last_date storeB "g" "u" 5 "not-a-date" "0001-01-01" 1
      (by decide) (by decide) (by decide)⟩

/-! ### Consecutive-day run (for C3) -/

/-- `k` successive `record_streak` calls for the same user, posting on day
`f 0`, then `f 1`, and so on. -/
def runDays (st : Store) (gid uid : String) (f : Nat → String) : Nat → Store
  | 0 => st
  | n + 1 => (record_streak (runDays st gid uid f n) gid uid (f n)).2

theorem record_streak_mem_fresh {sd : StoreData} {gid uid T : String}
    (h0 : (alookup uid (usersOf (ensure_guild sd gid) gid)).getD freshUser
      = freshUser) :
    (record_streak_mem sd gid uid T).1 = 1 := by
  simp only [usersOf] at h0
  simp only [record_streak_mem, h0]
  rw [if_neg (by simp [freshUser])]
  simp [elseStreak, truthyStr, freshUser]

theorem record_streak_mem_incr {sd : StoreData} {gid uid T Ds : String}
    {n d t : Int}
    (hu : alookup uid (usersOf (ensure_guild sd gid) gid) = some ⟨n, some Ds⟩)
    (hd : parseDate Ds = some d) (hT : parseDate T = some t) (ht : t = d + 1) :
    (record_streak_mem sd gid uid T).1 = n + 1 := by
  have hne : Ds ≠ T := parseDate_ne hd hT (by omega)
  simp only [usersOf] at hu
  simp only [record_streak_mem, hu, Option.getD_some]
  rw [if_neg (by simpa using hne)]
  simp only [elseStreak, dateDiff, hd, hT]
  rw [if_pos (by simp [truthyStr, bne_iff_ne]; exact parseDate_ne_empty hd)]
  rw [if_pos (by subst ht; simp)]

theorem guild_present_of_user {sd : StoreData} {gid uid : String} {u : UserData}
    (h : alookup uid (usersOf sd gid) = some u) :
    (alookup gid sd.guilds).isSome := by
  cases hg : alookup gid sd.guilds with
  | some g => simp
  | none => simp [usersOf, guildOf, hg, defaultGuild, alookup] at h

theorem runDays_invariant (st : Store) (gid uid : String) (f : Nat → String)
    (t : Int) (N : Nat)
    (hf : ∀ i, i < N → parseDate (f i) = some (t + i))
    (h0 : (alookup uid (usersOf (ensure_guild st.mem gid) gid)).getD freshUser
      = freshUser) :
    ∀ k, k < N →
      (record_streak (runDays st gid uid f k) gid uid (f k)).1 = (k : Int) + 1 ∧
      alookup uid (usersOf (runDays st gid uid f (k + 1)).mem gid)
        = some ⟨(k : Int) + 1, some (f k)⟩ := by
  intro k
  induction k with
  | zero =>
    intro hk
    have hres : (record_streak_mem st.mem gid uid (f 0)).1 = 1 :=
      record_streak_mem_fresh h0
    constructor
    · simpa using hres
    · have hpost := record_post st.mem gid uid (f 0)
      rw [hres] at hpost
      simpa using hpost
  | succ k ih =>
    intro hk
    obtain ⟨hres, hstate⟩ := ih (by omega)
    have hpres : (alookup gid (runDays st gid uid f (k + 1)).mem.guilds).isSome :=
      guild_present_of_user hstate
    have hu : alookup uid
        (usersOf (ensure_guild (runDays st gid uid f (k + 1)).mem gid) gid)
        = some ⟨(k : Int) + 1, some (f k)⟩ := by
      rw [ensure_of_isSome hpres]
      exact hstate
    have hd : parseDate (f k) = some (t + k) := hf k (by omega)
    have hT : parseDate (f (k + 1)) = some (t + (k + 1 : Nat)) := hf (k + 1) hk
    have hres2 : (record_streak_mem (runDays st gid uid f (k + 1)).mem gid uid
        (f (k + 1))).1 = ((k : Int) + 1) + 1 :=
      record_streak_mem_incr hu hd hT (by push_cast; ring)
    constructor
    · simpa using hres2
    · have hpost := record_post (runDays st gid uid f (k + 1)).mem gid uid (f (k + 1))
      rw [hres2] at hpost
      have : ((k + 1 : Nat) : Int) + 1 = ((k : Int) + 1) + 1 := by push_cast; ring
      rw [this]
      simpa using hpost

/-- C3: starting from a user with no recorded state (absent, or streak 0
with null `last_date`) and posting once on each of `N` consecutive
calendar days, the `N`-th call returns `N` and the stored streak after it
is `N`. -/
theorem c3_n_consecutive_days (st : Store) (gid uid : String) (f : Nat → String)
    (t : Int) (N : Nat)
    (hN : 1 ≤ N)
    (hf : ∀ i, i < N → parseDate (f i) = some (t + i))
    (h0 : (alookup uid (usersOf (ensure_guild st.mem gid) gid)).getD freshUser
      = freshUser) :
    (record_streak (runDays st gid uid f (N - 1)) gid uid (f (N - 1))).1 = N ∧
    alookup uid (usersOf (runDays st gid uid f N).mem gid)
      = some ⟨(N : Int), some (f (N - 1))⟩ := by
  obtain ⟨k, rfl⟩ : ∃ k, N = k + 1 := ⟨N - 1, by omega⟩
  obtain ⟨h1, h2⟩ := runDays_invariant st gid uid f t (k + 1) hf h0 k (by omega)
  constructor
  · rw [show (k + 1 - 1 : Nat) = k from rfl, h1]
    push_cast
    ring
  · rw [show (k + 1 - 1 : Nat) = k from rfl]
    rw [h2]
    norm_cast

/-- The post dates for the C3 witness: 0001-01-01 then 0001-01-02. -/
def twoDays : Nat → String := fun i => if i = 0 then "0001-01-01" else "0001-01-02"

/-- Witness for C3: two consecutive days from the empty manager end with
streak 2 returned and stored. -/
theorem c3_n_consecutive_days_witness :
    1 ≤ 2 ∧
    (∀ i, i < 2 → parseDate (twoDays i) = some (1 + (i : Int))) ∧
    (alookup "u" (usersOf (ensure_guild emptyStore.mem "g") "g")).getD freshUser
      = freshUser ∧
    ((record_streak (runDays emptyStore "g" "u" twoDays (2 - 1)) "g" "u"
        (twoDays (2 - 1))).1 = 2 ∧
      alookup "u" (usersOf (runDays emptyStore "g" "u" twoDays 2).mem "g")
        = some ⟨(2 : Int), some (twoDays (2 - 1))⟩) :=
  ⟨by decide, by decide, by decide,
    c3_n_consecutive_days emptyStore "g" "u" twoDays 1 2
      (by decide) (by decide) (by decide)⟩

/-- C4: `remove_user_streak` on a recorded user stores `(0, None)`
simultaneously, after which `get_user_streak` returns 0 and a subsequent
`record_streak` on any date returns 1 (a fresh start, not a
continuation); on a user never recorded, the guild's users dict is left
unchanged. -/
theorem c4_reset_user (st : Store) (gid uid : String) :
    (∀ u, alookup uid (usersOf (ensure_guild st.mem gid) gid) = some u →
      (alookup uid (usersOf (remove_user_streak st gid uid).mem gid)
          = some ⟨0, none⟩ ∧
        (get_user_streak (remove_user_streak st gid uid) gid uid).1 = 0 ∧
        ∀ T, (record_streak (remove_user_streak st gid uid) gid uid T).1 = 1)) ∧
    (alookup uid (usersOf (ensure_guild st.mem gid) gid) = none →
      usersOf (remove_user_streak st gid uid).mem gid
        = usersOf (ensure_guild st.mem gid) gid) := by
  constructor
  · intro u hu
    simp only [usersOf, guildOf] at hu
    have hlook : alookup uid (usersOf (remove_user_streak st gid uid).mem gid)
        = some ⟨0, none⟩ := by
      simp only [remove_user_streak, usersOf, guildOf, hu]
      simp [alookup_aset_self]
    have hpres : (alookup gid (remove_user_streak st gid uid).mem.guilds).isSome :=
      guild_present_of_user hlook
    refine ⟨hlook, ?_, ?_⟩
    · simp only [get_user_streak]
      rw [ensure_of_isSome hpres, hlook]
    · intro T
      have h0 : (alookup uid (usersOf
          (ensure_guild (remove_user_streak st gid uid).mem gid) gid)).getD freshUser
          = freshUser := by
        rw [ensure_of_isSome hpres, hlook]
        rfl
      exact record_streak_mem_fresh h0
  · intro hu
    simp only [usersOf, guildOf] at hu ⊢
    simp only [remove_user_streak, usersOf, guildOf, hu]
    simp [alookup_aset_self]

/-- Witness for C4: resetting the streak-3 user stores `(0, None)`,
`get_user_streak` reads 0, and the next post (even far later) returns 1. -/
theorem c4_reset_user_witness :
    alookup "u" (usersOf (ensure_guild storeA.mem "g") "g")
      = some ⟨3, some "0001-01-05"⟩ ∧
    (alookup "u" (usersOf (remove_user_streak storeA "g" "u").mem "g")
        = some ⟨0, none⟩ ∧
      (get_user_streak (remove_user_streak storeA "g" "u") "g" "u").1 = 0 ∧
      (record_streak (remove_user_streak storeA "g" "u") "g" "u" "0002-03-04").1
        = 1) :=
  have hc := (c4_reset_user storeA "g" "u").1 ⟨3, some "0001-01-05"⟩ (by decide)
  ⟨by decide, hc.1, hc.2.1, hc.2.2 "0002-03-04"⟩

/-! ### Sorting lemmas (for C6) -/

theorem mem_insertDesc {q p : String × Int} {l : List (String × Int)} :
    q ∈ insertDesc p l ↔ q = p ∨ q ∈ l := by
  induction l with
  | nil => simp [insertDesc]
  | cons r t ih =>
    by_cases h : r.2 ≤ p.2
    · simp [insertDesc, h]
    · simp [insertDesc, h, ih]
      tauto

theorem perm_insertDesc (p : String × Int) (l : List (String × Int)) :
    List.Perm (insertDesc p l) (p :: l) := by
  induction l with
  | nil => simp [insertDesc]
  | cons r t ih =>
    by_cases h : r.2 ≤ p.2
    · simp [insertDesc, h]
    · simp only [insertDesc, if_neg h]
      exact (ih.cons r).trans (List.Perm.swap p r t)

theorem sortDesc_perm (l : List (String × Int)) : List.Perm (sortDesc l) l := by
  induction l with
  | nil => simp [sortDesc]
  | cons p t ih =>
    exact (perm_insertDesc p (sortDesc t)).trans (ih.cons p)

theorem sorted_insertDesc (p : String × Int) {l : List (String × Int)}
    (h : List.Sorted (fun a b => b.2 ≤ a.2) l) :
    List.Sorted (fun a b => b.2 ≤ a.2) (insertDesc p l) := by
  induction l with
  | nil => simp [insertDesc]
  | cons r t ih =>
    rw [List.sorted_cons] at h
    obtain ⟨hr, ht⟩ := h
    by_cases hc : r.2 ≤ p.2
    · simp only [insertDesc, if_pos hc]
      rw [List.sorted_cons]
      constructor
      · intro b hb
        rcases List.mem_cons.mp hb with rfl | hb2
        · exact hc
        · exact le_trans (hr b hb2) hc
      · exact List.sorted_cons.mpr ⟨hr, ht⟩
    · simp only [insertDesc, if_neg hc]
      rw [List.sorted_cons]
      constructor
      · intro b hb
        rcases mem_insertDesc.mp hb with rfl | hb2
        · exact le_of_not_le hc
        · exact hr b hb2
      · exact ih ht

theorem sortDesc_sorted (l : List (String × Int)) :
    List.Sorted (fun a b => b.2 ≤ a.2) (sortDesc l) := by
  induction l with
  | nil => simp [sortDesc]
  | cons p t ih => exact sorted_insertDesc p ih

/-- C6: the leaderboard is exactly the `(user_id, streak)` pairs of the
guild's users with strictly positive streak (zero-streak users never
appear), arranged in descending order of streak. -/
theorem c6_leaderboard (st : Store) (gid : String) :
    List.Perm (get_leaderboard st gid).1
      (((usersOf (ensure_guild st.mem gid) gid).filter
          (fun p => 0 < p.2.streak)).map (fun p => (p.1, p.2.streak))) ∧
    List.Sorted (fun a b => b.2 ≤ a.2) (get_leaderboard st gid).1 :=
  ⟨sortDesc_perm _, sortDesc_sorted _⟩

/-- C7: with every role resolvable, the reward loop grants exactly the
roles whose threshold is reached by the streak and which the member does
not already hold; several qualifying thresholds with distinct roles all
fire in the same pass. -/
theorem c7_resolve_grants (resolve : String → Option String) (s : Int)
    (rewards : List (Int × String)) (memberRoles : List String) (role : String)
    (hres : ∀ r, resolve r = some r) :
    role ∈ roles_to_add resolve s rewards memberRoles ↔
      ∃ d, (d, role) ∈ rewards ∧ d ≤ s ∧ role ∉ memberRoles := by
  simp only [roles_to_add, List.mem_filterMap]
  constructor
  · rintro ⟨⟨d, r⟩, hmem, hf⟩
    simp only [hres] at hf
    by_cases hds : d ≤ s
    · rw [if_pos hds] at hf
      by_cases hmr : memberRoles.contains r
      · rw [if_pos hmr] at hf
        exact absurd hf (by simp)
      · rw [if_neg hmr] at hf
        injection hf with hf2
        subst hf2
        exact ⟨d, hmem, hds, fun hin => hmr (List.elem_iff.mpr hin)⟩
    · rw [if_neg hds] at hf
      exact absurd hf (by simp)
  · rintro ⟨d, hmem, hds, hnot⟩
    refine ⟨(d, role), hmem, ?_⟩
    simp only [hres]
    rw [if_pos hds, if_neg (fun hc => hnot (List.elem_iff.mp hc))]

/-- Witness for C7: with rewards at 5 days for R1 and 10 days for R2, a
10-day streak holder already having R1 is granted exactly R2. -/
theorem c7_resolve_grants_witness :
    (∀ r : String, (some r : Option String) = some r) ∧
    ("R2" ∈ roles_to_add some 10 [(5, "R1"), (10, "R2")] ["R1"] ↔
      ∃ d, (d, "R2") ∈ [((5 : Int), "R1"), (10, "R2")] ∧ d ≤ 10 ∧
        "R2" ∉ ["R1"]) :=
  ⟨fun _ => rfl,
    c7_resolve_grants some 10 [(5, "R1"), (10, "R2")] ["R1"] "R2" (fun _ => rfl)⟩

/-- C8: per guild, the daily cleanup selects exactly the users whose
stored `last_date` is set, parses, and lies more than 7 days before
today, pairing each with the reward roles they currently hold; a guild
whose (integer-keyed) reward mapping is empty contributes nothing at
all. -/
theorem c8_sweeper_selection (today : Int) (g : GuildData)
    (memberRoles : String → List String) (uid : String) (rs : List String) :
    (uid, rs) ∈ cleanup_inactive_plan today g memberRoles ↔
      (role_rewards_view g.role_rewards ≠ [] ∧
        ∃ ud ld l, (uid, ud) ∈ g.users ∧ ud.last_date = some ld ∧
          parseDate ld = some l ∧ 7 < today - l ∧
          rs = ((role_rewards_view g.role_rewards).map Prod.snd).filter
            (fun r => (memberRoles uid).contains r)) := by
  by_cases hr : role_rewards_view g.role_rewards = []
  · simp [cleanup_inactive_plan, hr]
  · simp only [cleanup_inactive_plan, if_neg hr, List.mem_filterMap]
    constructor
    · rintro ⟨⟨u2, ud⟩, hmem, hf⟩
      cases hld : ud.last_date with
      | none =>
        simp only [hld] at hf
        exact Option.noConfusion hf
      | some ld =>
        simp only [hld] at hf
        by_cases h0 : ld = ""
        · rw [if_pos h0] at hf
          exact Option.noConfusion hf
        · rw [if_neg h0] at hf
          cases hpl : parseDate ld with
          | none =>
            simp only [hpl] at hf
            exact Option.noConfusion hf
          | some l =>
            simp only [hpl] at hf
            by_cases h7 : 7 < today - l
            · rw [if_pos h7] at hf
              injection hf with hf2
              injection hf2 with ha hb
              subst ha
              subst hb
              exact ⟨hr, ud, ld, l, hmem, hld, hpl, h7, rfl⟩
            · rw [if_neg h7] at hf
              exact Option.noConfusion hf
    · rintro ⟨hr2, ud, ld, l, hmem, hld, hpl, h7, rfl⟩
      refine ⟨(uid, ud), hmem, ?_⟩
      simp [hld, parseDate_ne_empty hpl, hpl, h7]

/-- Counterexample to C9 as stated: on a guild ID never seen before, the
getters are not pure — `get_streak_channel` on the empty manager creates
the guild record in memory (via `ensure_guild`), so the store is
changed. -/
theorem c9_counterexample : (get_streak_channel emptyStore "g1").2 ≠ emptyStore := by
  decide

/-- C9 amended: the four getters never touch the persisted document and
never call `_save_data`; their only in-memory effect is `ensure_guild`,
so for a guild ID already present they leave the whole manager state
unchanged, while for an unseen guild ID they insert one fresh default
guild record in memory. -/
theorem c9_getters_frame (st : Store) (gid uid : String) :
    ((alookup gid st.mem.guilds).isSome →
      (get_streak_channel st gid).2 = st ∧
      (get_role_rewards st gid).2 = st ∧
      (get_user_streak st gid uid).2 = st ∧
      (get_leaderboard st gid).2 = st) ∧
    ((get_streak_channel st gid).2 = ⟨ensure_guild st.mem gid, st.disk⟩ ∧
      (get_role_rewards st gid).2 = ⟨ensure_guild st.mem gid, st.disk⟩ ∧
      (get_user_streak st gid uid).2 = ⟨ensure_guild st.mem gid, st.disk⟩ ∧
      (get_leaderboard st gid).2 = ⟨ensure_guild st.mem gid, st.disk⟩) := by
  constructor
  · intro h
    have he := ensure_of_isSome h
    refine ⟨?_, ?_, ?_, ?_⟩ <;>
      simp [get_streak_channel, get_role_rewards, get_user_streak,
        get_leaderboard, he]
  · exact ⟨rfl, rfl, rfl, rfl⟩

/-- Witness for C9 (amended): on a manager already holding guild `"g"`,
all four getters leave the state untouched. -/
theorem c9_getters_frame_witness :
    (alookup "g" storeA.mem.guilds).isSome = true ∧
    ((get_streak_channel storeA "g").2 = storeA ∧
      (get_role_rewards storeA "g").2 = storeA ∧
      (get_user_streak storeA "g" "u").2 = storeA ∧
      (get_leaderboard storeA "g").2 = storeA) :=
  ⟨by decide, (c9_getters_frame storeA "g" "u").1 (by decide)⟩

/-- Counterexample to C5 as stated: `set_role_reward` itself accepts a
non-positive threshold — the `days <= 0` guard lives in the `!addrole`
command, not in the store — so one store operation from the empty manager
yields a `get_role_rewards` key `0`, which is not strictly positive
(`"0".isdigit()` holds, so the view keeps it). -/
theorem c5_counterexample :
    ¬ (∀ p ∈ (get_role_rewards (set_role_reward emptyStore "g1" 0 "r1") "g1").1,
        0 < p.1) := by
  decide

/-- All threshold keys of a raw rewards dict are strictly positive. -/
def rrKeysPos (rr : List (Int × String)) : Prop := ∀ p ∈ rr, 0 < p.1

/-- Every guild of the document has strictly positive reward thresholds. -/
def storeKeysPos (sd : StoreData) : Prop :=
  ∀ q ∈ sd.guilds, rrKeysPos q.2.role_rewards

theorem storeKeysPos_guildOf {sd : StoreData} (gid : String)
    (h : storeKeysPos sd) : rrKeysPos (guildOf sd gid).role_rewards := by
  unfold guildOf
  cases hg : alookup gid sd.guilds with
  | some g => exact h (gid, g) (alookup_mem hg)
  | none =>
    intro p hp
    simp [defaultGuild] at hp

theorem storeKeysPos_set {l : List (String × GuildData)}
    (h : ∀ q ∈ l, rrKeysPos q.2.role_rewards) {gid : String} {g : GuildData}
    (hg : rrKeysPos g.role_rewards) :
    ∀ q ∈ aset gid g l, rrKeysPos q.2.role_rewards := by
  intro q hq
  rcases mem_aset hq with rfl | hq2
  · exact hg
  · exact h q hq2

theorem storeKeysPos_ensure {sd : StoreData} (gid : String)
    (h : storeKeysPos sd) : storeKeysPos (ensure_guild sd gid) := by
  unfold ensure_guild
  cases hg : alookup gid sd.guilds with
  | some g => exact h
  | none =>
    intro q hq
    rcases mem_aset hq with rfl | hq2
    · intro p hp
      simp [defaultGuild] at hp
    · exact h q hq2

theorem mem_role_rewards_view_aux (rr : List (Int × String)) :
    ∀ (acc : List (Int × String)) (p : Int × String),
      p ∈ rr.foldl (fun acc kv => if 0 ≤ kv.1 then aset kv.1 kv.2 acc else acc) acc →
      p ∈ acc ∨ p ∈ rr := by
  induction rr with
  | nil =>
    intro acc p h
    exact Or.inl h
  | cons kv t ih =>
    intro acc p h
    simp only [List.foldl_cons] at h
    rcases ih _ p h with h2 | h2
    · by_cases hk : 0 ≤ kv.1
      · rw [if_pos hk] at h2
        rcases mem_aset h2 with rfl | h3
        · exact Or.inr (List.mem_cons_self _ _)
        · exact Or.inl h3
      · rw [if_neg hk] at h2
        exact Or.inl h2
    · exact Or.inr (List.mem_cons_of_mem _ h2)

theorem mem_role_rewards_view {rr : List (Int × String)} {p : Int × String}
    (h : p ∈ role_rewards_view rr) : p ∈ rr := by
  rcases mem_role_rewards_view_aux rr [] p h with h2 | h2
  · simp at h2
  · exact h2

theorem role_rewards_view_keys_nodup_aux (rr : List (Int × String)) :
    ∀ acc : List (Int × String), (acc.map Prod.fst).Nodup →
      ((rr.foldl (fun acc kv => if 0 ≤ kv.1 then aset kv.1 kv.2 acc else acc)
        acc).map Prod.fst).Nodup := by
  induction rr with
  | nil =>
    intro acc h
    exact h
  | cons kv t ih =>
    intro acc h
    simp only [List.foldl_cons]
    apply ih
    by_cases hk : 0 ≤ kv.1
    · rw [if_pos hk]
      exact keys_nodup_aset kv.1 kv.2 h
    · rwa [if_neg hk]

theorem role_rewards_view_keys_nodup (rr : List (Int × String)) :
    ((role_rewards_view rr).map Prod.fst).Nodup :=
  role_rewards_view_keys_nodup_aux rr [] (by simp)

theorem storeKeysPos_record {sd : StoreData} (gid uid T : String)
    (h : storeKeysPos sd) :
    storeKeysPos (record_streak_mem sd gid uid T).2 := by
  have h1 := storeKeysPos_ensure gid h
  have h2 := storeKeysPos_guildOf gid h1
  simp only [record_streak_mem]
  split
  · exact storeKeysPos_set h1 h2
  · exact storeKeysPos_set h1 h2

/-- C5 amended: with `set_role_reward` only ever invoked on strictly
positive thresholds (the `!addrole` command rejects `days <= 0` before
calling the store), every store operation preserves strict positivity of
the reward threshold keys; under that invariant every key surfaced by
`get_role_rewards` is strictly positive, and its keys are always free of
duplicates, so each threshold maps to exactly one role. -/
theorem c5_threshold_invariant (st : Store) (gid uid cid T rid : String)
    (days : Int) (h : storeKeysPos st.mem) :
    storeKeysPos (ensure_guild st.mem gid) ∧
    storeKeysPos (set_streak_channel st gid cid).mem ∧
    storeKeysPos (unset_streak_channel st gid).mem ∧
    storeKeysPos (get_streak_channel st gid).2.mem ∧
    storeKeysPos (record_streak st gid uid T).2.mem ∧
    storeKeysPos (remove_user_streak st gid uid).mem ∧
    (0 < days → storeKeysPos (set_role_reward st gid days rid).mem) ∧
    storeKeysPos (remove_role_reward st gid days).mem ∧
    storeKeysPos (get_role_rewards st gid).2.mem ∧
    storeKeysPos (get_user_streak st gid uid).2.mem ∧
    storeKeysPos (get_leaderboard st gid).2.mem ∧
    (∀ p ∈ (get_role_rewards st gid).1, 0 < p.1) ∧
    ((get_role_rewards st gid).1.map Prod.fst).Nodup := by
  have h1 := storeKeysPos_ensure gid h
  have h2 := storeKeysPos_guildOf gid h1
  refine ⟨h1, ?_, ?_, h1, storeKeysPos_record gid uid T h, ?_, ?_, ?_, h1, h1, h1,
    ?_, role_rewards_view_keys_nodup _⟩
  · exact storeKeysPos_set h1 h2
  · exact storeKeysPos_set h1 h2
  · exact storeKeysPos_set h1 h2
  · intro hd
    refine storeKeysPos_set h1 ?_
    intro p hp
    rcases mem_aset hp with rfl | hp2
    · exact hd
    · exact h2 p hp2
  · refine storeKeysPos_set h1 ?_
    intro p hp
    exact h2 p (mem_aerase hp)
  · intro p hp
    exact h2 p (mem_role_rewards_view hp)

/-- Witness for C5 (amended): on a concrete manager with positive-keyed
rewards, every operation keeps the invariant and the rewards view has
positive, duplicate-free keys. -/
theorem c5_threshold_invariant_witness :
    storeKeysPos storeA.mem ∧
    (storeKeysPos (ensure_guild storeA.mem "g") ∧
    storeKeysPos (set_streak_channel storeA "g" "c").mem ∧
    storeKeysPos (unset_streak_channel storeA "g").mem ∧
    storeKeysPos (get_streak_channel storeA "g").2.mem ∧
    storeKeysPos (record_streak storeA "g" "u" "0001-01-06").2.mem ∧
    storeKeysPos (remove_user_streak storeA "g" "u").mem ∧
    (0 < (5 : Int) → storeKeysPos (set_role_reward storeA "g" 5 "r").mem) ∧
    storeKeysPos (remove_role_reward storeA "g" 5).mem ∧
    storeKeysPos (get_role_rewards storeA "g").2.mem ∧
    storeKeysPos (get_user_streak storeA "g" "u").2.mem ∧
    storeKeysPos (get_leaderboard storeA "g").2.mem ∧
    (∀ p ∈ (get_role_rewards storeA "g").1, 0 < p.1) ∧
    ((get_role_rewards storeA "g").1.map Prod.fst).Nodup) :=
  have h : storeKeysPos storeA.mem := by
    intro q hq
    rcases List.mem_singleton.mp hq with rfl
    intro p hp
    exact absurd hp (List.not_mem_nil p)
  ⟨h, c5_threshold_invariant storeA "g" "u" "c" "0001-01-06" "r" 5 h⟩
